import Mathlib

set_option autoImplicit false

/-!
Verification of the whitelist store of the septsat repository.

The development shallowly embeds the two store implementations:

* `MACDatabase` in `src/auth/mac-database.js` (file-backed JSON store with
  backup, access log and statistics), and
* `MacDatabase` in `src/auth/macdb.js` (file-backed JSON store with a
  lock file and separator-canonicalizing MAC normalization),

together with the validation logic of the serverless handlers.  Stateful
JavaScript methods become pure functions that take the current snapshot
plus the values the method obtains from its environment (the current
timestamp as an opaque string, freshly generated UUIDs, device metadata)
and return the result object paired with the snapshot left on disk.
-/

namespace Septsat

/-! ## JavaScript string primitives -/

/-- JavaScript `toLowerCase` on one character, restricted to ASCII as MAC
strings are: code points 65-90 (`A`-`Z`) shift to 97-122, everything else
is unchanged. -/
def lowerChar (c : Char) : Char :=
  if 65 ≤ c.toNat && c.toNat ≤ 90 then Char.ofNat (c.toNat + 32) else c

/-- JavaScript `s.toLowerCase()` as used for MAC normalization throughout
the repository. -/
def jsToLower (s : String) : String := ⟨s.data.map lowerChar⟩

/-- JavaScript truthiness of an optional string field: `undefined`, `null`
and the empty string are falsy, every other string is truthy. -/
def truthy : Option String → Bool
  | none => false
  | some s => s != ""

/-- JavaScript `o || dflt` on an optional string field, as in
`entry.accessType || "trial"`. -/
def jsOr (o : Option String) (dflt : String) : String :=
  match o with
  | some s => if s = "" then dflt else s
  | none => dflt

/-! ## Association-list operations

JavaScript objects keyed by normalized MAC (`data.macAddresses`) are
embedded as association lists in insertion order: indexing reads the first
matching key, assignment updates in place or appends, `delete` removes the
key. -/

/-- Read `m[k]`. -/
def alookup {β : Type} (k : String) : List (String × β) → Option β
  | [] => none
  | (k', v) :: rest => if k' = k then some v else alookup k rest

/-- Write `m[k] = v`: update in place when the key exists, append otherwise. -/
def aset {β : Type} (k : String) (v : β) : List (String × β) → List (String × β)
  | [] => [(k, v)]
  | (k', v') :: rest => if k' = k then (k, v) :: rest else (k', v') :: aset k v rest

/-- JavaScript `delete m[k]`. -/
def aremove {β : Type} (k : String) : List (String × β) → List (String × β)
  | [] => []
  | (k', v) :: rest => if k' = k then rest else (k', v) :: aremove k rest

theorem alookup_aset_self {β : Type} (k : String) (v : β) (l : List (String × β)) :
    alookup k (aset k v l) = some v := by
  induction l with
  | nil => simp [aset, alookup]
  | cons hd tl ih =>
    by_cases h : hd.1 = k
    · simp [aset, alookup, h]
    · simpa [aset, alookup, h] using ih

theorem alookup_aset_ne {β : Type} (k k' : String) (v : β) (l : List (String × β))
    (h : k' ≠ k) : alookup k' (aset k v l) = alookup k' l := by
  induction l with
  | nil => simp [aset, alookup, Ne.symm h]
  | cons hd tl ih =>
    by_cases hh : hd.1 = k
    · subst hh
      simp [aset, alookup, Ne.symm h]
    · simp only [aset, if_neg hh, alookup]
      by_cases hk : hd.1 = k'
      · simp [hk]
      · simp [hk, ih]

theorem mem_aset {β : Type} (k : String) (v : β) (l : List (String × β)) :
    ∀ kv ∈ aset k v l, kv = (k, v) ∨ kv ∈ l := by
  induction l with
  | nil => simp [aset]
  | cons hd tl ih =>
    by_cases h : hd.1 = k
    · intro kv hkv
      simp only [aset, if_pos h, List.mem_cons] at hkv
      rcases hkv with h1 | h2
      · exact Or.inl h1
      · exact Or.inr (List.mem_cons_of_mem _ h2)
    · intro kv hkv
      simp only [aset, if_neg h, List.mem_cons] at hkv
      rcases hkv with h1 | h2
      · exact Or.inr (by simp [h1])
      · rcases ih kv h2 with h3 | h4
        · exact Or.inl h3
        · exact Or.inr (List.mem_cons_of_mem _ h4)

theorem mem_aremove {β : Type} (k : String) (l : List (String × β)) :
    ∀ kv ∈ aremove k l, kv ∈ l := by
  induction l with
  | nil => simp [aremove]
  | cons hd tl ih =>
    by_cases h : hd.1 = k
    · intro kv hkv
      simp only [aremove, if_pos h] at hkv
      exact List.mem_cons_of_mem _ hkv
    · intro kv hkv
      simp only [aremove, if_neg h, List.mem_cons] at hkv
      rcases hkv with h1 | h2
      · simp [h1]
      · exact List.mem_cons_of_mem _ (ih kv h2)

/-! ## Data model of `MACDatabase` (src/auth/mac-database.js)

`Entry` is one whitelist record as stored in `macAddresses`.  Fields that
the JavaScript code can leave `undefined` or `null` are `Option`s. -/

structure DeviceInfo where
  hostname : String
  username : String
  platform : String
  localIP : String
  publicIP : String
  fingerprint : Option String
  deriving DecidableEq

structure Entry where
  description : String
  accessType : Option String
  addedAt : String
  updatedAt : Option String
  lastSeen : Option String
  accessCount : Nat
  lastDevice : Option DeviceInfo
  id : Option String
  deriving DecidableEq

structure Stats where
  totalDevices : Nat
  totalAccesses : Nat
  lastUpdated : String
  deriving DecidableEq

structure Database where
  macAddresses : List (String × Entry)
  statistics : Stats
  deriving DecidableEq

/-- The freshly initialized snapshot (`initializeDatabase`, also the
fallback shape used by `readDatabase` on a failed read). -/
def defaultDatabase (now : String) : Database :=
  { macAddresses := []
    statistics := { totalDevices := 0, totalAccesses := 0, lastUpdated := now } }

/-- In-memory effect of `writeDatabase` (mac-database.js lines 110-130) on
the snapshot it persists: `statistics.lastUpdated` is refreshed and
`statistics.totalDevices` is recomputed from the entry map just before the
data is serialized. -/
def writeDatabasePrepare (d : Database) (now : String) : Database :=
  { d with statistics :=
      { d.statistics with
          lastUpdated := now
          totalDevices := d.macAddresses.length } }

structure OpResult where
  success : Bool
  message : String
  deriving DecidableEq

/-- `addMACAddress` (mac-database.js lines 237-284): lower-case the MAC,
fail when the key is already present, otherwise insert a fresh entry with
`accessCount = 0`, `lastSeen = null` and a fresh id, and persist through
`writeDatabase`.  Returns the result object paired with the snapshot on
disk after the call. -/
def addMACAddress (db : Database) (macAddress description accessType : String)
    (now uuid : String) : OpResult × Database :=
  let normalizedMac := jsToLower macAddress
  match alookup normalizedMac db.macAddresses with
  | some _ =>
      ({ success := false, message := "MAC address already exists in whitelist" }, db)
  | none =>
      let entry : Entry :=
        { description := description
          accessType := some accessType
          addedAt := now
          updatedAt := none
          lastSeen := none
          accessCount := 0
          lastDevice := none
          id := some uuid }
      let db' := { db with macAddresses := aset normalizedMac entry db.macAddresses }
      ({ success := true, message := "MAC address added successfully" },
       writeDatabasePrepare db' now)

/-- C3: adding a MAC whose normalized form is already present fails with
the duplicate-entry result (`success = false`) and leaves the store
exactly as it was: same snapshot, same entry count, and the existing
entry's fields untouched. -/
theorem addMACAddress_duplicate (db : Database) (mac desc ty now uuid : String)
    (e : Entry) (h : alookup (jsToLower mac) db.macAddresses = some e) :
    (addMACAddress db mac desc ty now uuid).1.success = false ∧
    (addMACAddress db mac desc ty now uuid).1.message =
      "MAC address already exists in whitelist" ∧
    (addMACAddress db mac desc ty now uuid).2 = db ∧
    (addMACAddress db mac desc ty now uuid).2.macAddresses.length =
      db.macAddresses.length ∧
    alookup (jsToLower mac) (addMACAddress db mac desc ty now uuid).2.macAddresses =
      some e := by
  simp [addMACAddress, h]

/-! ## Access log (`logAccess`, mac-database.js lines 132-166) -/

/-- Device snapshot stored inside one access-log record. -/
structure LogDevice where
  hostname : String
  username : String
  platform : String
  localIP : String
  publicIP : String
  fingerprint : String
  deriving DecidableEq

/-- One record of `accessEvents`. -/
structure LogEntry where
  timestamp : String
  macAddress : String
  deviceInfo : LogDevice
  success : Bool
  message : String
  id : String
  deriving DecidableEq

/-- JavaScript `deviceInfo.fingerprint?.substring(0, 16) + "..."`; an absent
fingerprint stringifies to `undefined` before the concatenation. -/
def fingerprintDisplay (o : Option String) : String :=
  match o with
  | some s => ⟨s.data.take 16⟩ ++ "..."
  | none => "undefined..."

/-- The log record built by `logAccess` (mac-database.js lines 138-152). -/
def mkLogEntry (now mac : String) (dev : DeviceInfo) (granted : Bool)
    (message uuid : String) : LogEntry :=
  { timestamp := now
    macAddress := mac
    deviceInfo :=
      { hostname := dev.hostname
        username := dev.username
        platform := dev.platform
        localIP := dev.localIP
        publicIP := dev.publicIP
        fingerprint := fingerprintDisplay dev.fingerprint }
    success := granted
    message := message
    id := uuid }

/-- Configured bound of the access log (mac-database.js line 157: keep only
the last 1000 entries). -/
def logBound : Nat := 1000

/-- The last `n` elements of a list, in their original order. -/
def takeLast {α : Type} (n : Nat) (l : List α) : List α := l.drop (l.length - n)

/-- Push-and-truncate step of `logAccess` (mac-database.js lines 154-159):
append at the end, then drop the oldest entries while the bound is
exceeded (`accessEvents.slice(-1000)`). -/
def appendEvent (log : List LogEntry) (e : LogEntry) : List LogEntry :=
  let log' := log ++ [e]
  if log'.length > logBound then takeLast logBound log' else log'

/-- `logAccess` (mac-database.js lines 132-166), restricted to its effect on
the persisted `accessEvents` list. -/
def logAccess (log : List LogEntry) (now mac : String) (dev : DeviceInfo)
    (granted : Bool) (message uuid : String) : List LogEntry :=
  appendEvent log (mkLogEntry now mac dev granted message uuid)

/-- Arguments of one `logAccess` call. -/
structure LogCall where
  now : String
  mac : String
  dev : DeviceInfo
  granted : Bool
  message : String
  uuid : String

/-- The record a given call appends. -/
def callEntry (c : LogCall) : LogEntry :=
  mkLogEntry c.now c.mac c.dev c.granted c.message c.uuid

/-- One `logAccess` call folded over the log state. -/
def applyLogCall (log : List LogEntry) (c : LogCall) : List LogEntry :=
  logAccess log c.now c.mac c.dev c.granted c.message c.uuid

theorem takeLast_length_le {α : Type} (n : Nat) (l : List α) :
    (takeLast n l).length ≤ n := by
  unfold takeLast
  rw [List.length_drop]
  omega

theorem takeLast_of_length_le {α : Type} (n : Nat) (l : List α)
    (h : l.length ≤ n) : takeLast n l = l := by
  unfold takeLast
  have h0 : l.length - n = 0 := by omega
  rw [h0, List.drop_zero]

theorem appendEvent_eq_takeLast (log : List LogEntry) (e : LogEntry) :
    appendEvent log e = takeLast logBound (log ++ [e]) := by
  unfold appendEvent
  by_cases h : (log ++ [e]).length > logBound
  · rw [if_pos h]
  · rw [if_neg h]
    exact (takeLast_of_length_le _ _ (by omega)).symm

theorem takeLast_append_snoc {α : Type} (n : Nat) (hn : 1 ≤ n) (l : List α) (e : α) :
    takeLast n (takeLast n l ++ [e]) = takeLast n (l ++ [e]) := by
  by_cases h : l.length ≤ n
  · rw [takeLast_of_length_le n l h]
  · push_neg at h
    have hdl : (l.drop (l.length - n)).length = n := by
      rw [List.length_drop]; omega
    unfold takeLast
    rw [List.length_append, List.length_append, hdl]
    have h1 : (l.drop (l.length - n) ++ [e]).drop (n + [e].length - n) =
        (l.drop (l.length - n)).drop 1 ++ [e] := by
      have he : n + [e].length - n = 1 := by simp
      rw [he]
      exact List.drop_append_of_le_length (by omega)
    have h2 : (l ++ [e]).drop (l.length + [e].length - n) =
        l.drop (l.length + [e].length - n) ++ [e] :=
      List.drop_append_of_le_length (by simp; omega)
    rw [h1, h2, List.drop_drop]
    congr 2
    simp only [List.length_singleton]
    omega

/-- C5: after any sequence of `logAccess` calls starting from the freshly
initialized empty log, the persisted log never exceeds the configured
bound, and its contents are exactly the records of the most recent
`logBound` calls in their original insertion order (FIFO eviction of the
oldest records). -/
theorem log_fifo_bounded (calls : List LogCall) :
    (calls.foldl applyLogCall []).length ≤ logBound ∧
    calls.foldl applyLogCall [] = takeLast logBound (calls.map callEntry) := by
  induction calls using List.reverseRecOn with
  | nil => exact ⟨by simp [logBound], by simp [takeLast]⟩
  | append_singleton es c ih =>
    have hstep : (es ++ [c]).foldl applyLogCall [] =
        appendEvent (es.foldl applyLogCall []) (callEntry c) := by
      rw [List.foldl_append]
      rfl
    have heq : (es ++ [c]).foldl applyLogCall [] =
        takeLast logBound ((es ++ [c]).map callEntry) := by
      rw [hstep, appendEvent_eq_takeLast, ih.2,
        takeLast_append_snoc logBound (by simp [logBound]) _ _]
      simp
    exact ⟨heq ▸ takeLast_length_le _ _, heq⟩

/-! ## Access check (`checkAccess`, mac-database.js lines 169-234) -/

/-- Payload returned on a successful access check. -/
structure CheckData where
  macAddress : String
  description : String
  accessType : String
  addedAt : String
  lastSeen : Option String
  accessCount : Nat
  deriving DecidableEq

structure CheckResult where
  success : Bool
  message : String
  data : Option CheckData
  deriving DecidableEq

/-- Candidate loop of `checkAccess` (mac-database.js lines 174-213): the
candidates are scanned in the order supplied by the caller; the first one
whose lower-cased form is a key of the whitelist has its entry stamped
(`lastSeen`, `accessCount + 1`, `lastDevice`), `statistics.totalAccesses`
is bumped and the snapshot persisted through `writeDatabase`; later
candidates are never examined.  An exhausted list yields the failure
result and leaves the snapshot untouched. -/
def checkAccessLoop (db : Database) (dev : DeviceInfo) (now : String) :
    List String → CheckResult × Database
  | [] =>
      ({ success := false
         message := "Device not authorized. MAC address not in whitelist."
         data := none }, db)
  | macAddress :: rest =>
      let normalizedMac := jsToLower macAddress
      match alookup normalizedMac db.macAddresses with
      | some entry =>
          let entry' := { entry with
            lastSeen := some now
            accessCount := entry.accessCount + 1
            lastDevice := some dev }
          let db' := { db with
            macAddresses := aset normalizedMac entry' db.macAddresses
            statistics := { db.statistics with
              totalAccesses := db.statistics.totalAccesses + 1 } }
          ({ success := true
             message := "Device authorized"
             data := some
               { macAddress := normalizedMac
                 description := entry.description
                 accessType := jsOr entry.accessType "trial"
                 addedAt := entry.addedAt
                 lastSeen := some now
                 accessCount := entry.accessCount + 1 } },
           writeDatabasePrepare db' now)
      | none => checkAccessLoop db dev now rest

/-- `checkAccess` (mac-database.js lines 169-234). -/
def checkAccess (db : Database) (macAddresses : List String) (dev : DeviceInfo)
    (now : String) : CheckResult × Database :=
  checkAccessLoop db dev now macAddresses

/-- C1: when the caller-supplied candidate list is `pre ++ m :: post` and no
candidate in `pre` is whitelisted while `m` is, the access decision is made
from `m`: the success payload carries the entry found under the normalized
`m`, exactly that entry gets its `lastSeen`, `accessCount` and `lastDevice`
updated, and every other key of the whitelist (in particular any matching
candidate in `post`) is left untouched. -/
theorem checkAccess_first_match (db : Database) (dev : DeviceInfo) (now : String)
    (pre post : List String) (m : String) (e : Entry)
    (hpre : ∀ m' ∈ pre, alookup (jsToLower m') db.macAddresses = none)
    (hm : alookup (jsToLower m) db.macAddresses = some e) :
    (checkAccess db (pre ++ m :: post) dev now).1.success = true ∧
    (checkAccess db (pre ++ m :: post) dev now).1.data = some
      { macAddress := jsToLower m
        description := e.description
        accessType := jsOr e.accessType "trial"
        addedAt := e.addedAt
        lastSeen := some now
        accessCount := e.accessCount + 1 } ∧
    alookup (jsToLower m) (checkAccess db (pre ++ m :: post) dev now).2.macAddresses =
      some { e with
        lastSeen := some now
        accessCount := e.accessCount + 1
        lastDevice := some dev } ∧
    (∀ k, k ≠ jsToLower m →
      alookup k (checkAccess db (pre ++ m :: post) dev now).2.macAddresses =
        alookup k db.macAddresses) := by
  induction pre with
  | nil =>
    simp only [checkAccess, List.nil_append, checkAccessLoop, hm, writeDatabasePrepare]
    refine ⟨trivial, trivial, ?_, ?_⟩
    · exact alookup_aset_self _ _ _
    · intro k hk
      exact alookup_aset_ne _ _ _ _ hk
  | cons hd tl ih =>
    have hhd : alookup (jsToLower hd) db.macAddresses = none :=
      hpre hd (List.mem_cons_self hd tl)
    have htl : ∀ m' ∈ tl, alookup (jsToLower m') db.macAddresses = none :=
      fun m' hm' => hpre m' (List.mem_cons_of_mem hd hm')
    simpa only [checkAccess, List.cons_append, checkAccessLoop, hhd] using ih htl

def entryC1 : Entry :=
  { description := "dev machine"
    accessType := some "unlimited"
    addedAt := "2024-02-02T00:00:00Z"
    updatedAt := none
    lastSeen := none
    accessCount := 4
    lastDevice := none
    id := some "id-c1" }

def dbC1 : Database :=
  { macAddresses := [("aa:aa:aa:aa:aa:aa", entryC1)]
    statistics := { totalDevices := 1, totalAccesses := 4, lastUpdated := "t0" } }

def devC1 : DeviceInfo :=
  { hostname := "host", username := "user", platform := "darwin"
    localIP := "10.0.0.2", publicIP := "1.2.3.4", fingerprint := none }

/-- Witness for C1 at a concrete store: with one non-whitelisted candidate
listed first, access is granted from the second candidate. -/
theorem checkAccess_first_match_witness :
    (checkAccess dbC1 ["11:22:33:44:55:66", "AA:AA:AA:AA:AA:AA"] devC1 "t1").1.success
      = true ∧
    (checkAccess dbC1 ["11:22:33:44:55:66", "AA:AA:AA:AA:AA:AA"] devC1 "t1").1.data
      = some
      { macAddress := "aa:aa:aa:aa:aa:aa"
        description := "dev machine"
        accessType := "unlimited"
        addedAt := "2024-02-02T00:00:00Z"
        lastSeen := some "t1"
        accessCount := 5 } := by
  have h := checkAccess_first_match dbC1 devC1 "t1" ["11:22:33:44:55:66"] []
    "AA:AA:AA:AA:AA:AA" entryC1 (by decide) (by decide)
  exact ⟨h.1, h.2.1⟩

/-! ## Update and remove (mac-database.js lines 287-364) -/

/-- `updateMACAccess` (mac-database.js lines 287-325): lower-case the MAC,
fail when absent, otherwise overwrite `accessType` with the supplied string
as is (no validation of the value happens here), stamp `updatedAt` and
persist. -/
def updateMACAccess (db : Database) (macAddress accessType : String)
    (now : String) : OpResult × Database :=
  let normalizedMac := jsToLower macAddress
  match alookup normalizedMac db.macAddresses with
  | none =>
      ({ success := false, message := "MAC address not found in whitelist" }, db)
  | some entry =>
      let entry' := { entry with accessType := some accessType, updatedAt := some now }
      let db' := { db with macAddresses := aset normalizedMac entry' db.macAddresses }
      ({ success := true, message := "Access type updated successfully" },
       writeDatabasePrepare db' now)

/-- `removeMACAddress` (mac-database.js lines 328-364). -/
def removeMACAddress (db : Database) (macAddress : String)
    (now : String) : OpResult × Database :=
  let normalizedMac := jsToLower macAddress
  match alookup normalizedMac db.macAddresses with
  | none =>
      ({ success := false, message := "MAC address not found in whitelist" }, db)
  | some _ =>
      let db' := { db with macAddresses := aremove normalizedMac db.macAddresses }
      ({ success := true, message := "MAC address removed successfully" },
       writeDatabasePrepare db' now)

/-! ## MAC-format validation of the serverless handlers -/

/-- ASCII hexadecimal digit, either case (the character class
`[0-9A-Fa-f]`). -/
def isHexChar (c : Char) : Bool :=
  (decide (48 ≤ c.toNat) && decide (c.toNat ≤ 57)) ||
  (decide (97 ≤ c.toNat) && decide (c.toNat ≤ 102)) ||
  (decide (65 ≤ c.toNat) && decide (c.toNat ≤ 70))

/-- Matcher for the handler regex `([0-9A-Fa-f]{2}[:-]){5}[0-9A-Fa-f]{2}`
anchored on both sides: `n + 1` groups of two hex digits, the first `n`
each followed by a colon or hyphen. -/
def validMacChars : Nat → List Char → Bool
  | 0, [a, b] => isHexChar a && isHexChar b
  | n + 1, a :: b :: s :: rest =>
      isHexChar a && isHexChar b && (s == ':' || s == '-') && validMacChars n rest
  | _, _ => false

/-- `isValidMac` of the serverless handlers (part_002 line 1140 and
api/mac-auth.js): six colon- or hyphen-separated pairs of hex digits. -/
def isValidMac (s : String) : Bool := validMacChars 5 s.data

/-- Whether a string is one of the three recognized access levels
(`['trial', 'unlimited', 'admin'].includes(accessType)`). -/
def isKnownAccessType (ty : String) : Bool :=
  ty == "trial" || ty == "unlimited" || ty == "admin"

/-- Outcome of the HTTP `update-access` handler. -/
inductive UpdateOutcome where
  | invalidAdmin
  | invalidFormat
  | invalidType
  | notFound
  | updated (mac ty : String)
  deriving DecidableEq

/-- Validation-then-update flow of `handleUpdateAccess` (part_002 lines
510-570), with the backing table modelled as the same keyed entry map: the
admin key, the MAC format and the access type are checked in that order
before any storage is touched; only then is the normalized key looked up
and the row updated. -/
def handleUpdateAccess (store : List (String × Entry)) (mac ty : String)
    (adminOk : Bool) (now : String) : UpdateOutcome × List (String × Entry) :=
  if adminOk = false then (UpdateOutcome.invalidAdmin, store)
  else if isValidMac mac = false then (UpdateOutcome.invalidFormat, store)
  else if isKnownAccessType ty = false then (UpdateOutcome.invalidType, store)
  else
    let normalizedMac := jsToLower mac
    match alookup normalizedMac store with
    | none => (UpdateOutcome.notFound, store)
    | some e =>
        (UpdateOutcome.updated normalizedMac ty,
         aset normalizedMac { e with accessType := some ty, updatedAt := some now } store)

/-! ## Persistence traces

File-system actions of the two write paths, abstracted as event lists so
that write protocols can be compared. -/

inductive FsEvent where
  | acquireLockFile
  | releaseLockFile
  | copyBackup
  | writeTempFile
  | renameTempToMain
  | writeMainFile
  deriving DecidableEq

/-- File-system actions of `writeDatabase` in mac-database.js (lines
110-130), in order: `backupDatabase` copies the committed file into the
backups directory, the new snapshot is serialized to
`mac-whitelist.json.tmp`, and the temporary file is moved over the main
file.  No lock of any kind is taken on this path. -/
def writeDatabaseEvents : List FsEvent :=
  [FsEvent.copyBackup, FsEvent.writeTempFile, FsEvent.renameTempToMain]

/-- File-system actions of `writeDatabase` in macdb.js (lines 89-101) once
the lock is obtained: the `.lock` file is created, the snapshot is
serialized directly into the main database path (no temporary file and no
rename), and the lock file is removed. -/
def mdbWriteDatabaseEvents : List FsEvent :=
  [FsEvent.acquireLockFile, FsEvent.writeMainFile, FsEvent.releaseLockFile]

/-! ## Bulk add (`bulkAddMACs`, mac-database.js lines 430-497) -/

structure BulkItem where
  macAddress : String
  description : Option String
  accessType : Option String
  deriving DecidableEq

structure BulkItemResult where
  macAddress : String
  status : String
  reason : Option String
  accessType : Option String
  deriving DecidableEq

structure BulkSummary where
  total : Nat
  added : Nat
  skipped : Nat
  deriving DecidableEq

structure BulkResult where
  success : Bool
  message : String
  results : List BulkItemResult
  summary : BulkSummary
  deriving DecidableEq

/-- State produced by the `bulkAddMACs` loop. -/
structure BulkLoopOut where
  entries : List (String × Entry)
  results : List BulkItemResult
  added : Nat
  skipped : Nat
  deriving DecidableEq

/-- The entry inserted for one bulk item (mac-database.js lines 448-456). -/
def bulkEntryFor (item : BulkItem) (now uuid : String) : Entry :=
  { description := jsOr item.description "Bulk added device"
    accessType := some (jsOr item.accessType "trial")
    addedAt := now
    updatedAt := none
    lastSeen := none
    accessCount := 0
    lastDevice := none
    id := some uuid }

/-- The `for` loop of `bulkAddMACs` (mac-database.js lines 437-465),
rendered as structural recursion: each item is lower-cased and looked up in
the evolving in-memory map; a present key records a skipped result, an
absent one inserts the new entry and records an added result.  No MAC
format validation of any kind happens here.  The recursion produces the
same result list (in input order) and the same counters as the imperative
loop with `push`. -/
def bulkLoop (now : String) (uuidSup : Nat → String) :
    List BulkItem → List (String × Entry) → Nat → BulkLoopOut
  | [], entries, _ => ⟨entries, [], 0, 0⟩
  | item :: rest, entries, i =>
      let normalizedMac := jsToLower item.macAddress
      match alookup normalizedMac entries with
      | some _ =>
          let r := bulkLoop now uuidSup rest entries (i + 1)
          ⟨r.entries,
           { macAddress := normalizedMac, status := "skipped"
             reason := some "Already exists", accessType := none } :: r.results,
           r.added, r.skipped + 1⟩
      | none =>
          let r := bulkLoop now uuidSup rest
            (aset normalizedMac (bulkEntryFor item now (uuidSup i)) entries) (i + 1)
          ⟨r.entries,
           { macAddress := normalizedMac, status := "added"
             reason := none, accessType := some (jsOr item.accessType "trial") } :: r.results,
           r.added + 1, r.skipped⟩

/-- `bulkAddMACs` (mac-database.js lines 430-497): run the loop over the
snapshot read once at the start, then persist the whole updated snapshot
with a single `writeDatabase` call after the loop. -/
def bulkAddMACs (db : Database) (items : List BulkItem) (now : String)
    (uuidSup : Nat → String) : BulkResult × Database :=
  let r := bulkLoop now uuidSup items db.macAddresses 0
  ({ success := true
     message := "Bulk operation completed: " ++ toString r.added ++ " added, "
       ++ toString r.skipped ++ " skipped"
     results := r.results
     summary := { total := items.length, added := r.added, skipped := r.skipped } },
   writeDatabasePrepare { db with macAddresses := r.entries } now)

/-- File-system actions of one `bulkAddMACs` call: the loop only mutates
the in-memory object, and `writeDatabase` runs exactly once, after the loop
(mac-database.js line 467), whatever the items are. -/
def bulkAddEvents (_items : List BulkItem) : List FsEvent := writeDatabaseEvents

theorem bulkLoop_spec (now : String) (uuidSup : Nat → String) (items : List BulkItem) :
    ∀ (entries : List (String × Entry)) (i : Nat),
    (bulkLoop now uuidSup items entries i).results.map (fun x => x.macAddress) =
      items.map (fun it => jsToLower it.macAddress) ∧
    (bulkLoop now uuidSup items entries i).added +
      (bulkLoop now uuidSup items entries i).skipped = items.length ∧
    (bulkLoop now uuidSup items entries i).added =
      ((bulkLoop now uuidSup items entries i).results.filter
        (fun x => x.status == "added")).length ∧
    (bulkLoop now uuidSup items entries i).skipped =
      ((bulkLoop now uuidSup items entries i).results.filter
        (fun x => x.status == "skipped")).length ∧
    (∀ res ∈ (bulkLoop now uuidSup items entries i).results,
      (res.status = "added" ∧ res.reason = none) ∨
      (res.status = "skipped" ∧ res.reason = some "Already exists")) := by
  induction items with
  | nil =>
    intro entries i
    simp [bulkLoop]
  | cons item rest ih =>
    intro entries i
    cases h : alookup (jsToLower item.macAddress) entries with
    | some e =>
      obtain ⟨ih1, ih2, ih3, ih4, ih5⟩ := ih entries (i + 1)
      simp only [bulkLoop, h, List.map_cons, List.length_cons, List.filter_cons,
        List.mem_cons]
      refine ⟨by simp [ih1], by omega, by simpa using ih3, by simpa using ih4, ?_⟩
      intro res hres
      rcases hres with h1 | h2
      · exact Or.inr ⟨by simp [h1], by simp [h1]⟩
      · exact ih5 res h2
    | none =>
      obtain ⟨ih1, ih2, ih3, ih4, ih5⟩ :=
        ih (aset (jsToLower item.macAddress) (bulkEntryFor item now (uuidSup i)) entries)
          (i + 1)
      simp only [bulkLoop, h, List.map_cons, List.length_cons, List.filter_cons,
        List.mem_cons]
      refine ⟨by simp [ih1], by omega, by simpa using ih3, by simpa using ih4, ?_⟩
      intro res hres
      rcases hres with h1 | h2
      · exact Or.inl ⟨by simp [h1], by simp [h1]⟩
      · exact ih5 res h2

theorem bulkLoop_fresh (now : String) (uuidSup : Nat → String) (items : List BulkItem) :
    ∀ (entries : List (String × Entry)) (i : Nat),
    (∀ it ∈ items, alookup (jsToLower it.macAddress) entries = none) →
    (items.map (fun it => jsToLower it.macAddress)).Nodup →
    (bulkLoop now uuidSup items entries i).skipped = 0 ∧
    ∀ res ∈ (bulkLoop now uuidSup items entries i).results, res.status = "added" := by
  induction items with
  | nil =>
    intro entries i _ _
    simp [bulkLoop]
  | cons item rest ih =>
    intro entries i hfresh hnodup
    have h0 : alookup (jsToLower item.macAddress) entries = none :=
      hfresh item (List.mem_cons_self item rest)
    have hnodup' : ((item :: rest).map (fun it => jsToLower it.macAddress)).Nodup :=
      hnodup
    rw [List.map_cons, List.nodup_cons] at hnodup'
    have hfresh' : ∀ it ∈ rest,
        alookup (jsToLower it.macAddress)
          (aset (jsToLower item.macAddress) (bulkEntryFor item now (uuidSup i)) entries)
          = none := by
      intro it hit
      have hne : jsToLower it.macAddress ≠ jsToLower item.macAddress := by
        intro hEq
        exact hnodup'.1 (by
          rw [← hEq]
          exact List.mem_map_of_mem (fun it => jsToLower it.macAddress) hit)
      rw [alookup_aset_ne _ _ _ _ hne]
      exact hfresh it (List.mem_cons_of_mem _ hit)
    obtain ⟨hs, hres⟩ := ih _ (i + 1) hfresh' hnodup'.2
    simp only [bulkLoop, h0]
    exact ⟨hs, by
      intro res hresMem
      rcases List.mem_cons.mp hresMem with h1 | h2
      · simp [h1]
      · exact hres res h2⟩

/-- C6 counterexample: `bulkAddMACs` performs no MAC-format validation —
an item whose MAC does not match the handler regex is happily added (its
per-item result has status `added`, the summary counts it as added, and the
malformed key lands in the store), against the claim that an
invalid-format item is recorded as a per-item failure. -/
theorem bulkAdd_format_counterexample :
    isValidMac "not-a-mac" = false ∧
    (bulkAddMACs (defaultDatabase "t0")
        [{ macAddress := "NOT-A-MAC", description := some "x", accessType := none }]
        "t1" (fun _ => "u0")).1.results =
      [{ macAddress := "not-a-mac", status := "added", reason := none
         accessType := some "trial" }] ∧
    (bulkAddMACs (defaultDatabase "t0")
        [{ macAddress := "NOT-A-MAC", description := some "x", accessType := none }]
        "t1" (fun _ => "u0")).1.summary =
      { total := 1, added := 1, skipped := 0 } ∧
    (alookup "not-a-mac"
      (bulkAddMACs (defaultDatabase "t0")
        [{ macAddress := "NOT-A-MAC", description := some "x", accessType := none }]
        "t1" (fun _ => "u0")).2.macAddresses).isSome = true := by
  decide

/-- C6 amended: `bulkAddMACs` does not validate MAC format (that check
lives only in the serverless bulk handler); it records a per-item skip
exactly for items whose normalized MAC is already present at processing
time and adds every other item, malformed or not.  The per-item result list
is in input order with the normalized MAC of each input item; the summary
satisfies `total = length input` and `added + skipped = total`, with
`added`/`skipped` equal to the number of per-item added/skipped outcomes;
the whole pass performs exactly one persisted write; and when every item is
fresh (absent from the store and no duplicates inside the batch) nothing is
skipped. -/
theorem bulkAddMACs_spec (db : Database) (items : List BulkItem) (now : String)
    (uuidSup : Nat → String) :
    ((bulkAddMACs db items now uuidSup).1.results.map (fun x => x.macAddress) =
      items.map (fun it => jsToLower it.macAddress)) ∧
    (bulkAddMACs db items now uuidSup).1.summary.total = items.length ∧
    ((bulkAddMACs db items now uuidSup).1.summary.added +
      (bulkAddMACs db items now uuidSup).1.summary.skipped = items.length) ∧
    ((bulkAddMACs db items now uuidSup).1.summary.added =
      ((bulkAddMACs db items now uuidSup).1.results.filter
        (fun x => x.status == "added")).length) ∧
    ((bulkAddMACs db items now uuidSup).1.summary.skipped =
      ((bulkAddMACs db items now uuidSup).1.results.filter
        (fun x => x.status == "skipped")).length) ∧
    (∀ res ∈ (bulkAddMACs db items now uuidSup).1.results,
      (res.status = "added" ∧ res.reason = none) ∨
      (res.status = "skipped" ∧ res.reason = some "Already exists")) ∧
    ((bulkAddEvents items).count FsEvent.writeTempFile = 1 ∧
     (bulkAddEvents items).count FsEvent.renameTempToMain = 1 ∧
     (bulkAddEvents items).count FsEvent.writeMainFile = 0) ∧
    ((∀ it ∈ items, alookup (jsToLower it.macAddress) db.macAddresses = none) →
      (items.map (fun it => jsToLower it.macAddress)).Nodup →
      (bulkAddMACs db items now uuidSup).1.summary.skipped = 0 ∧
      ∀ res ∈ (bulkAddMACs db items now uuidSup).1.results, res.status = "added") := by
  obtain ⟨h1, h2, h3, h4, h5⟩ := bulkLoop_spec now uuidSup items db.macAddresses 0
  refine ⟨h1, rfl, h2, h3, h4, h5, ⟨rfl, rfl, rfl⟩, ?_⟩
  intro hfresh hnodup
  exact bulkLoop_fresh now uuidSup items db.macAddresses 0 hfresh hnodup

def itemC6a : BulkItem :=
  { macAddress := "AA-BB-CC-DD-EE-00", description := none
    accessType := some "unlimited" }

def itemC6b : BulkItem :=
  { macAddress := "aa-bb-cc-dd-ee-00", description := none, accessType := none }

/-- Witness for C6 at a concrete batch: one fresh item and one duplicate of
it give per-item outcomes in input order under the normalized keys, and the
fresh-batch clause applies to the singleton batch. -/
theorem bulkAddMACs_spec_witness :
    ((bulkAddMACs (defaultDatabase "t0") [itemC6a, itemC6b] "t1"
        (fun n => toString n)).1.results.map (fun x => x.macAddress) =
      ["aa-bb-cc-dd-ee-00", "aa-bb-cc-dd-ee-00"]) ∧
    ((bulkAddMACs (defaultDatabase "t0") [itemC6a] "t1"
        (fun n => toString n)).1.summary.skipped = 0) := by
  have h := bulkAddMACs_spec (defaultDatabase "t0") [itemC6a, itemC6b] "t1"
    (fun n => toString n)
  have h2 := bulkAddMACs_spec (defaultDatabase "t0") [itemC6a] "t1"
    (fun n => toString n)
  refine ⟨?_, ((h2.2.2.2.2.2.2.2) (by decide) (by decide)).1⟩
  rw [h.1]
  decide

def entryC7 : Entry :=
  { description := "kiosk"
    accessType := some "trial"
    addedAt := "2024-03-03T00:00:00Z"
    updatedAt := none
    lastSeen := none
    accessCount := 0
    lastDevice := none
    id := some "id-c7" }

def dbC7 : Database :=
  { macAddresses := [("aa:bb:cc:dd:ee:ff", entryC7)]
    statistics := { totalDevices := 1, totalAccesses := 0, lastUpdated := "t0" } }

/-- C7 counterexample: the store operation `updateMACAccess` accepts an
access type outside `{trial, unlimited, admin}` — the call succeeds and the
entry now carries the bogus value, against the claim that such a request
fails with `InvalidAccessType` before touching storage. -/
theorem updateMACAccess_no_validation_counterexample :
    isKnownAccessType "banana" = false ∧
    (updateMACAccess dbC7 "aa:bb:cc:dd:ee:ff" "banana" "t1").1.success = true ∧
    alookup "aa:bb:cc:dd:ee:ff"
        (updateMACAccess dbC7 "aa:bb:cc:dd:ee:ff" "banana" "t1").2.macAddresses =
      some { entryC7 with accessType := some "banana", updatedAt := some "t1" } := by
  decide

/-- C7 amended: `updateMACAccess` fails with the not-found result when the
normalized MAC is absent (store unchanged) and otherwise overwrites
`accessType` with the supplied string — whatever it is — and stamps
`updatedAt`; the `InvalidAccessType` rejection happens only in the HTTP
handler `handleUpdateAccess`, which refuses an unknown access type before
any storage is touched. -/
theorem updateMACAccess_spec (ty now : String) :
    (∀ db : Database, ∀ mac, alookup (jsToLower mac) db.macAddresses = none →
      (updateMACAccess db mac ty now).1.success = false ∧
      (updateMACAccess db mac ty now).1.message = "MAC address not found in whitelist" ∧
      (updateMACAccess db mac ty now).2 = db) ∧
    (∀ db : Database, ∀ mac e, alookup (jsToLower mac) db.macAddresses = some e →
      (updateMACAccess db mac ty now).1.success = true ∧
      alookup (jsToLower mac) (updateMACAccess db mac ty now).2.macAddresses =
        some { e with accessType := some ty, updatedAt := some now }) ∧
    (∀ store : List (String × Entry), ∀ mac, isValidMac mac = true →
      isKnownAccessType ty = false →
      handleUpdateAccess store mac ty true now = (UpdateOutcome.invalidType, store)) := by
  refine ⟨?_, ?_, ?_⟩
  · intro db mac h
    simp [updateMACAccess, h]
  · intro db mac e h
    simp only [updateMACAccess, h]
    exact ⟨trivial, alookup_aset_self _ _ _⟩
  · intro store mac hfmt hbad
    simp [handleUpdateAccess, hfmt, hbad]

/-- Witness for C7 at concrete inputs: an absent MAC is refused, a present
one is overwritten and stamped both for the unknown type `banana` and for
the valid type `unlimited`, and the handler rejects the unknown type
without touching the store. -/
theorem updateMACAccess_spec_witness :
    ((updateMACAccess dbC7 "11:22:33:44:55:66" "banana" "t1").1.success = false ∧
     (updateMACAccess dbC7 "11:22:33:44:55:66" "banana" "t1").1.message =
       "MAC address not found in whitelist" ∧
     (updateMACAccess dbC7 "11:22:33:44:55:66" "banana" "t1").2 = dbC7) ∧
    ((updateMACAccess dbC7 "aa:bb:cc:dd:ee:ff" "banana" "t1").1.success = true ∧
     alookup "aa:bb:cc:dd:ee:ff"
         (updateMACAccess dbC7 "aa:bb:cc:dd:ee:ff" "banana" "t1").2.macAddresses =
       some { entryC7 with accessType := some "banana", updatedAt := some "t1" }) ∧
    ((updateMACAccess dbC7 "aa:bb:cc:dd:ee:ff" "unlimited" "t1").1.success = true ∧
     alookup "aa:bb:cc:dd:ee:ff"
         (updateMACAccess dbC7 "aa:bb:cc:dd:ee:ff" "unlimited" "t1").2.macAddresses =
       some { entryC7 with accessType := some "unlimited", updatedAt := some "t1" }) ∧
    handleUpdateAccess dbC7.macAddresses "aa:bb:cc:dd:ee:ff" "banana" true "t1" =
      (UpdateOutcome.invalidType, dbC7.macAddresses) := by
  have h := updateMACAccess_spec "banana" "t1"
  have hu := updateMACAccess_spec "unlimited" "t1"
  have hk : jsToLower "aa:bb:cc:dd:ee:ff" = "aa:bb:cc:dd:ee:ff" := by decide
  refine ⟨h.1 dbC7 "11:22:33:44:55:66" (by decide), ?_, ?_,
    h.2.2 dbC7.macAddresses "aa:bb:cc:dd:ee:ff" (by decide) (by decide)⟩
  · have h2 := h.2.1 dbC7 "aa:bb:cc:dd:ee:ff" entryC7 (by decide)
    exact ⟨h2.1, by rw [← hk]; exact h2.2⟩
  · have h2 := hu.2.1 dbC7 "aa:bb:cc:dd:ee:ff" entryC7 (by decide)
    exact ⟨h2.1, by rw [← hk]; exact h2.2⟩

def entryC3 : Entry :=
  { description := "office laptop"
    accessType := some "trial"
    addedAt := "2024-01-01T00:00:00Z"
    updatedAt := none
    lastSeen := none
    accessCount := 0
    lastDevice := none
    id := some "id-1" }

def dbC3 : Database :=
  { macAddresses := [("aa:bb:cc:dd:ee:ff", entryC3)]
    statistics := { totalDevices := 1, totalAccesses := 0, lastUpdated := "t0" } }

/-- Witness for C3 at a concrete store: a second add of the same address in
a different spelling of case fails and changes nothing. -/
theorem addMACAddress_duplicate_witness :
    (addMACAddress dbC3 "AA:BB:CC:DD:EE:FF" "again" "unlimited" "t1" "id-2").1.success
      = false ∧
    (addMACAddress dbC3 "AA:BB:CC:DD:EE:FF" "again" "unlimited" "t1" "id-2").2 = dbC3 :=
  ⟨(addMACAddress_duplicate dbC3 "AA:BB:CC:DD:EE:FF" "again" "unlimited" "t1" "id-2"
      entryC3 (by decide)).1,
   (addMACAddress_duplicate dbC3 "AA:BB:CC:DD:EE:FF" "again" "unlimited" "t1" "id-2"
      entryC3 (by decide)).2.2.1⟩

/-! ## MAC normalization of `MacDatabase` (src/auth/macdb.js)

`normalizeMac` lower-cases, strips every character outside `[a-f0-9]`, and
re-inserts a colon after every two characters that are followed by at least
one more (`replace(/(.{2})(?=.)/g, ...)`). -/

/-- Characters kept by the `[^a-f0-9]` stripping (lower-case hex digit). -/
def hexLower (c : Char) : Bool :=
  (decide (48 ≤ c.toNat) && decide (c.toNat ≤ 57)) ||
  (decide (97 ≤ c.toNat) && decide (c.toNat ≤ 102))

/-- Lower-cased hex digits of a string:
`macAddress.toLowerCase().replace(/[^a-f0-9]/g, ...)` with the empty
replacement. -/
def macHexDigits (s : String) : List Char := (s.data.map lowerChar).filter hexLower

/-- Colon insertion of the second replace: after every two characters that
have at least one successor. -/
def insertColons : List Char → List Char
  | a :: b :: c :: rest => a :: b :: ':' :: insertColons (c :: rest)
  | l => l

/-- `normalizeMac` (macdb.js lines 45-49). -/
def normalizeMac (s : String) : String := ⟨insertColons (macHexDigits s)⟩

theorem lowerChar_eq_self_of_hexLower {c : Char} (h : hexLower c = true) :
    lowerChar c = c := by
  have h' : c.toNat ≤ 57 ∨ 97 ≤ c.toNat := by
    unfold hexLower at h
    simp only [Bool.or_eq_true, Bool.and_eq_true, decide_eq_true_eq] at h
    omega
  unfold lowerChar
  rw [if_neg]
  simp only [Bool.and_eq_true, decide_eq_true_eq, not_and]
  omega

theorem hexLower_colon : hexLower ':' = false := by decide

theorem lowerChar_colon : lowerChar ':' = ':' := by decide

theorem hexDigits_insertColons : ∀ (d : List Char), (∀ c ∈ d, hexLower c = true) →
    ((insertColons d).map lowerChar).filter hexLower = d
  | [], _ => rfl
  | [a], h => by
      have ha := h a (by simp)
      simp [insertColons, lowerChar_eq_self_of_hexLower ha, ha]
  | [a, b], h => by
      have ha := h a (by simp)
      have hb := h b (by simp)
      simp [insertColons, lowerChar_eq_self_of_hexLower ha, ha,
        lowerChar_eq_self_of_hexLower hb, hb]
  | a :: b :: c :: rest, h => by
      have ha := h a (by simp)
      have hb := h b (by simp)
      have ih := hexDigits_insertColons (c :: rest) (fun x hx => h x (by
        simp only [List.mem_cons] at hx ⊢
        tauto))
      simp [insertColons, lowerChar_eq_self_of_hexLower ha, ha,
        lowerChar_eq_self_of_hexLower hb, hb, lowerChar_colon, hexLower_colon, ih]

theorem macHexDigits_all_hexLower (s : String) :
    ∀ c ∈ macHexDigits s, hexLower c = true := by
  intro c hc
  exact List.of_mem_filter hc

/-- Normalization preserves the hex digits: the inserted colons are
stripped again and lower-case hex digits are fixed by lower-casing. -/
theorem macHexDigits_normalizeMac (s : String) :
    macHexDigits (normalizeMac s) = macHexDigits s :=
  hexDigits_insertColons (macHexDigits s) (macHexDigits_all_hexLower s)

/-- Two spellings with the same hex digits normalize to the same key. -/
theorem normalizeMac_congr {s₁ s₂ : String}
    (h : macHexDigits s₁ = macHexDigits s₂) : normalizeMac s₁ = normalizeMac s₂ := by
  unfold normalizeMac
  rw [h]

theorem normalizeMac_idem (s : String) :
    normalizeMac (normalizeMac s) = normalizeMac s :=
  normalizeMac_congr (macHexDigits_normalizeMac s)

/-- Matcher for the macdb.js regex `^([0-9a-f]{2}:){5}([0-9a-f]{2})$` with
the `i` flag: `n + 1` colon-separated groups of two hex digits. -/
def validMacColonChars : Nat → List Char → Bool
  | 0, [a, b] => isHexChar a && isHexChar b
  | n + 1, a :: b :: s :: rest =>
      isHexChar a && isHexChar b && (s == ':') && validMacColonChars n rest
  | _, _ => false

/-- `isValidMac` of macdb.js (lines 236-239). -/
def mdbIsValidMac (s : String) : Bool := validMacColonChars 5 s.data

/-! ## Data model of `MacDatabase` (src/auth/macdb.js) -/

structure MdbEntry where
  added : String
  hash : String
  active : Bool
  lastAccess : Option String
  accessCount : Nat
  lastModified : Option String
  deriving DecidableEq

structure MdbMetadata where
  created : String
  version : String
  totalEntries : Nat
  lastModified : Option String
  deriving DecidableEq

structure MdbData where
  metadata : MdbMetadata
  macAddresses : List (String × MdbEntry)
  deriving DecidableEq

/-- The freshly initialized macdb.js snapshot (`init`, lines 22-29). -/
def mdbInit (created : String) : MdbData :=
  { metadata :=
      { created := created, version := "1.0.0", totalEntries := 0, lastModified := none }
    macAddresses := [] }

/-- In-memory effect of `writeDatabase` (macdb.js lines 89-101) on the
snapshot it persists: `metadata.lastModified` is stamped and
`metadata.totalEntries` recomputed from the entry map just before
serialization. -/
def mdbWritePrepare (d : MdbData) (now : String) : MdbData :=
  { d with metadata :=
      { d.metadata with
          lastModified := some now
          totalEntries := d.macAddresses.length } }

/-- `readDatabase` of macdb.js (lines 75-86): a failed read or JSON parse is
logged and rethrown to the caller — there is no fallback. `raw` is the
outcome of reading and parsing the backing file. -/
def mdbReadDatabase (raw : Except String MdbData) : Except String MdbData :=
  match raw with
  | Except.ok d => Except.ok d
  | Except.error e => Except.error e

structure MdbResult where
  success : Bool
  message : String
  deriving DecidableEq

/-- Core of `addMacAddress` (macdb.js lines 104-133) once the snapshot has
been read: duplicate keys are refused, otherwise the entry is inserted
under the normalized key and the snapshot persisted.  `hashFn` stands for
the SHA-256 hex digest of `generateHash`, left abstract. -/
def mdbAddCore (hashFn : String → String) (d : MdbData) (mac now : String) :
    MdbResult × MdbData :=
  let normalizedMac := normalizeMac mac
  match alookup normalizedMac d.macAddresses with
  | some _ => ({ success := false, message := "MAC address already exists" }, d)
  | none =>
      let entry : MdbEntry :=
        { added := now, hash := hashFn normalizedMac, active := true
          lastAccess := none, accessCount := 0, lastModified := none }
      ({ success := true, message := "MAC address added successfully" },
       mdbWritePrepare
         { d with macAddresses := aset normalizedMac entry d.macAddresses } now)

/-- `addMacAddress` (macdb.js lines 104-133) including its interaction with
`readDatabase`: the format check throws first, then the snapshot is read —
and a read failure propagates to the caller as is. -/
def mdbAddMacAddress (hashFn : String → String) (raw : Except String MdbData)
    (mac now : String) : Except String (MdbResult × MdbData) :=
  let normalizedMac := normalizeMac mac
  if mdbIsValidMac normalizedMac = false then
    Except.error "Invalid MAC address format"
  else
    match mdbReadDatabase raw with
    | Except.error e => Except.error e
    | Except.ok d => Except.ok (mdbAddCore hashFn d mac now)

structure MdbAuthResult where
  authenticated : Bool
  reason : Option String
  deriving DecidableEq

/-- Core of `authenticateMac` (macdb.js lines 136-165). -/
def mdbAuthCore (d : MdbData) (mac now : String) : MdbAuthResult × MdbData :=
  let normalizedMac := normalizeMac mac
  if mdbIsValidMac normalizedMac = false then
    ({ authenticated := false, reason := some "Invalid MAC format" }, d)
  else
    match alookup normalizedMac d.macAddresses with
    | none => ({ authenticated := false, reason := some "MAC address not found" }, d)
    | some e =>
        if e.active = false then
          ({ authenticated := false, reason := some "MAC address is disabled" }, d)
        else
          let e' := { e with lastAccess := some now, accessCount := e.accessCount + 1 }
          ({ authenticated := true, reason := none },
           mdbWritePrepare
             { d with macAddresses := aset normalizedMac e' d.macAddresses } now)

/-- Core of `removeMacAddress` (macdb.js lines 168-184). -/
def mdbRemoveCore (d : MdbData) (mac now : String) : MdbResult × MdbData :=
  let normalizedMac := normalizeMac mac
  match alookup normalizedMac d.macAddresses with
  | none => ({ success := false, message := "MAC address not found" }, d)
  | some _ =>
      ({ success := true, message := "MAC address removed successfully" },
       mdbWritePrepare
         { d with macAddresses := aremove normalizedMac d.macAddresses } now)

/-- Core of `toggleMacAddress` (macdb.js lines 187-205). -/
def mdbToggleCore (d : MdbData) (mac : String) (active : Bool) (now : String) :
    MdbResult × MdbData :=
  let normalizedMac := normalizeMac mac
  match alookup normalizedMac d.macAddresses with
  | none => ({ success := false, message := "MAC address not found" }, d)
  | some e =>
      let e' := { e with active := active, lastModified := some now }
      ({ success := true, message := "MAC address toggled" },
       mdbWritePrepare
         { d with macAddresses := aset normalizedMac e' d.macAddresses } now)

/-- One mutating `MacDatabase` call. -/
inductive MdbOp where
  | add (mac now : String)
  | auth (mac now : String)
  | remove (mac now : String)
  | toggle (mac : String) (active : Bool) (now : String)
  deriving DecidableEq

/-- Snapshot left on disk by one `MacDatabase` call (a thrown format error
leaves the snapshot untouched). -/
def applyMdbOp (hashFn : String → String) (d : MdbData) : MdbOp → MdbData
  | MdbOp.add mac now =>
      if mdbIsValidMac (normalizeMac mac) = false then d
      else (mdbAddCore hashFn d mac now).2
  | MdbOp.auth mac now => (mdbAuthCore d mac now).2
  | MdbOp.remove mac now => (mdbRemoveCore d mac now).2
  | MdbOp.toggle mac active now => (mdbToggleCore d mac active now).2

/-- Every key of the store is a fixpoint of `normalizeMac`. -/
def mdbNormKeys (d : MdbData) : Prop :=
  ∀ kv ∈ d.macAddresses, normalizeMac kv.1 = kv.1

theorem applyMdbOp_normKeys (hashFn : String → String) (d : MdbData) (op : MdbOp)
    (hd : mdbNormKeys d) : mdbNormKeys (applyMdbOp hashFn d op) := by
  cases op with
  | add mac now =>
    by_cases hv : mdbIsValidMac (normalizeMac mac) = false
    · simpa [applyMdbOp, hv] using hd
    · simp only [applyMdbOp, hv, if_false]
      unfold mdbAddCore
      cases h : alookup (normalizeMac mac) d.macAddresses with
      | some e => simpa [h] using hd
      | none =>
        simp only [h, mdbWritePrepare]
        intro kv hkv
        rcases mem_aset _ _ _ kv hkv with h1 | h2
        · rw [h1]
          exact normalizeMac_idem mac
        · exact hd kv h2
  | auth mac now =>
    unfold applyMdbOp mdbAuthCore
    by_cases hv : mdbIsValidMac (normalizeMac mac) = false
    · simpa [hv] using hd
    · simp only [hv, if_false]
      cases h : alookup (normalizeMac mac) d.macAddresses with
      | none => simpa [h] using hd
      | some e =>
        by_cases ha : e.active = false
        · simpa [h, ha] using hd
        · simp only [h, ha, if_false, mdbWritePrepare]
          intro kv hkv
          rcases mem_aset _ _ _ kv hkv with h1 | h2
          · rw [h1]
            exact normalizeMac_idem mac
          · exact hd kv h2
  | remove mac now =>
    unfold applyMdbOp mdbRemoveCore
    cases h : alookup (normalizeMac mac) d.macAddresses with
    | none => simpa [h] using hd
    | some e =>
      simp only [h, mdbWritePrepare]
      intro kv hkv
      exact hd kv (mem_aremove _ _ kv hkv)
  | toggle mac active now =>
    unfold applyMdbOp mdbToggleCore
    cases h : alookup (normalizeMac mac) d.macAddresses with
    | none => simpa [h] using hd
    | some e =>
      simp only [h, mdbWritePrepare]
      intro kv hkv
      rcases mem_aset _ _ _ kv hkv with h1 | h2
      · rw [h1]
        exact normalizeMac_idem mac
      · exact hd kv h2

theorem foldl_normKeys (hashFn : String → String) (ops : List MdbOp) :
    ∀ d : MdbData, mdbNormKeys d → mdbNormKeys (ops.foldl (applyMdbOp hashFn) d) := by
  induction ops with
  | nil => intro d hd; simpa using hd
  | cons op rest ih =>
    intro d hd
    rw [List.foldl_cons]
    exact ih _ (applyMdbOp_normKeys hashFn d op hd)

theorem alookup_isSome_mem {β : Type} (k : String) (l : List (String × β))
    (h : (alookup k l).isSome = true) : ∃ v, (k, v) ∈ l := by
  induction l with
  | nil => simp [alookup] at h
  | cons hd tl ih =>
    by_cases hk : hd.1 = k
    · exact ⟨hd.2, by simp [← hk]⟩
    · simp only [alookup, if_neg hk] at h
      obtain ⟨v, hv⟩ := ih h
      exact ⟨v, List.mem_cons_of_mem _ hv⟩

/-- C2 counterexample: in `MACDatabase` (mac-database.js) normalization is
lower-casing only, so the colon spelling and the hyphen spelling of one and
the same address (equal hex digits) are distinct keys: adding both
succeeds and the store ends up with two entries for one device. -/
theorem macdatabase_spelling_counterexample :
    macHexDigits "aa:bb:cc:dd:ee:ff" = macHexDigits "AA-BB-CC-DD-EE-FF" ∧
    (addMACAddress
        (addMACAddress (defaultDatabase "t0") "aa:bb:cc:dd:ee:ff" "d1" "trial" "t1" "u1").2
        "AA-BB-CC-DD-EE-FF" "d2" "trial" "t2" "u2").1.success = true ∧
    (addMACAddress
        (addMACAddress (defaultDatabase "t0") "aa:bb:cc:dd:ee:ff" "d1" "trial" "t1" "u1").2
        "AA-BB-CC-DD-EE-FF" "d2" "trial" "t2" "u2").2.macAddresses.length = 2 := by
  decide

/-- C2 amended: in `MacDatabase` (macdb.js) `normalizeMac` sends any two
spellings with the same hex digits (colon- or hyphen-separated, any case)
to one canonical key, and every add / authenticate / remove / toggle call
normalizes before touching the map, so after any sequence of operations
from a fresh store two keys with the same hex digits are the same key.  In
`MACDatabase` (mac-database.js) normalization is lower-casing only and two
spellings of one address can coexist (see the counterexample). -/
theorem mdb_no_duplicate_spellings (hashFn : String → String) (created : String)
    (ops : List MdbOp) :
    (∀ s₁ s₂ : String, macHexDigits s₁ = macHexDigits s₂ →
      normalizeMac s₁ = normalizeMac s₂) ∧
    (∀ k₁ k₂ : String,
      (alookup k₁ ((ops.foldl (applyMdbOp hashFn) (mdbInit created)).macAddresses)).isSome
        = true →
      (alookup k₂ ((ops.foldl (applyMdbOp hashFn) (mdbInit created)).macAddresses)).isSome
        = true →
      macHexDigits k₁ = macHexDigits k₂ → k₁ = k₂) := by
  refine ⟨fun s₁ s₂ h => normalizeMac_congr h, ?_⟩
  intro k₁ k₂ h₁ h₂ hsame
  have hnorm : mdbNormKeys (ops.foldl (applyMdbOp hashFn) (mdbInit created)) :=
    foldl_normKeys hashFn ops (mdbInit created) (by
      intro kv hkv
      simp [mdbInit] at hkv)
  obtain ⟨v₁, hv₁⟩ := alookup_isSome_mem k₁ _ h₁
  obtain ⟨v₂, hv₂⟩ := alookup_isSome_mem k₂ _ h₂
  have e₁ : normalizeMac k₁ = k₁ := hnorm (k₁, v₁) hv₁
  have e₂ : normalizeMac k₂ = k₂ := hnorm (k₂, v₂) hv₂
  calc k₁ = normalizeMac k₁ := e₁.symm
    _ = normalizeMac k₂ := normalizeMac_congr hsame
    _ = k₂ := e₂

/-- Witness for C2: adding the hyphen-upper-case spelling and then probing
with the colon-lower-case spelling of the same address touches one and the
same key of the macdb.js store. -/
theorem mdb_no_duplicate_spellings_witness :
    normalizeMac "AA-BB-CC-DD-EE-FF" = normalizeMac "aa:bb:cc:dd:ee:ff" ∧
    (alookup "aa:bb:cc:dd:ee:ff"
      (([MdbOp.add "AA-BB-CC-DD-EE-FF" "t1"].foldl (applyMdbOp (fun s => s))
        (mdbInit "t0")).macAddresses)).isSome = true := by
  have h := mdb_no_duplicate_spellings (fun s => s) "t0"
    [MdbOp.add "AA-BB-CC-DD-EE-FF" "t1"]
  exact ⟨h.1 "AA-BB-CC-DD-EE-FF" "aa:bb:cc:dd:ee:ff" (by decide), by decide⟩

/-! ## Reading the snapshot (C8) -/

/-- `readDatabase` of mac-database.js (lines 90-108): a failed read or JSON
parse is caught and replaced by the freshly initialized empty structure; no
error reaches the calling operation.  `raw` is the outcome of reading and
parsing the backing file. -/
def readDatabase (raw : Except String Database) (now : String) : Database :=
  match raw with
  | Except.ok d => d
  | Except.error _ => defaultDatabase now

theorem checkAccessLoop_empty_db (dev : DeviceInfo) (now t : String)
    (macs : List String) :
    (checkAccessLoop (defaultDatabase t) dev now macs).1.success = false ∧
    (checkAccessLoop (defaultDatabase t) dev now macs).2 = defaultDatabase t := by
  induction macs with
  | nil => exact ⟨rfl, rfl⟩
  | cons m rest ih => simpa [checkAccessLoop, defaultDatabase, alookup] using ih

/-- C8 counterexample: `readDatabase` of macdb.js rethrows a failed read, so
a corrupt snapshot error propagates out of `addMacAddress` instead of the
operation completing against an empty snapshot. -/
theorem mdb_corrupt_read_counterexample :
    mdbReadDatabase (Except.error "SyntaxError: Unexpected token") =
      Except.error "SyntaxError: Unexpected token" ∧
    mdbAddMacAddress (fun s => s) (Except.error "SyntaxError: Unexpected token")
        "aa:bb:cc:dd:ee:ff" "t1" =
      Except.error "SyntaxError: Unexpected token" := by
  constructor
  · rfl
  · rfl

/-- C8 amended: in `MACDatabase` (mac-database.js) an unreadable or invalid
snapshot is replaced by the freshly initialized empty one — no entries,
zeroed statistics — and the calling operation completes against it
(`checkAccess` denies, `addMACAddress` adds into the empty snapshot); in
`MacDatabase` (macdb.js) `readDatabase` rethrows instead (see the
counterexample). -/
theorem readDatabase_self_heals (err now t : String) (macs : List String)
    (dev : DeviceInfo) (mac desc ty uuid : String) :
    readDatabase (Except.error err) now = defaultDatabase now ∧
    (defaultDatabase now).macAddresses.length = 0 ∧
    (defaultDatabase now).statistics.totalDevices = 0 ∧
    (defaultDatabase now).statistics.totalAccesses = 0 ∧
    (checkAccess (readDatabase (Except.error err) now) macs dev t).1.success = false ∧
    (checkAccess (readDatabase (Except.error err) now) macs dev t).2 =
      defaultDatabase now ∧
    (addMACAddress (readDatabase (Except.error err) now) mac desc ty t uuid).1.success
      = true := by
  have h := checkAccessLoop_empty_db dev t now macs
  exact ⟨rfl, rfl, rfl, rfl, h.1, h.2, rfl⟩

/-! ## Lock acquisition and the write protocol (C4) -/

/-- Lock timeout of `acquireLock` (macdb.js line 52): 5000 ms. -/
def lockTimeoutMs : Nat := 5000

/-- Poll interval of the retry loop (macdb.js line 59): 10 ms. -/
def lockPollMs : Nat := 10

/-- Maximal number of lock-file creation attempts inside the bounded
window. -/
def lockMaxAttempts : Nat := lockTimeoutMs / lockPollMs

/-- The retry loop of `acquireLock` (macdb.js lines 52-63), discretized at
the 10 ms poll interval: `free n` tells whether the exclusive `.lock` file
can be created at the `n`-th attempt; when the window is exhausted the
explicit lock error is thrown. -/
def acquireLockLoop (free : Nat → Bool) : Nat → Nat → Except String Nat
  | _, 0 => Except.error "Could not acquire database lock"
  | attempt, fuel + 1 =>
      if free attempt then Except.ok attempt
      else acquireLockLoop free (attempt + 1) fuel

/-- `acquireLock` (macdb.js lines 52-63). -/
def acquireLock (free : Nat → Bool) : Except String Nat :=
  acquireLockLoop free 0 lockMaxAttempts

/-- The write protocol prescribed for mutating writes: take the exclusive
lock, write the snapshot to a temporary location, rename it into place,
release the lock. -/
def specWriteProtocol (tr : List FsEvent) : Prop :=
  FsEvent.acquireLockFile ∈ tr ∧ FsEvent.writeTempFile ∈ tr ∧
  FsEvent.renameTempToMain ∈ tr ∧ FsEvent.releaseLockFile ∈ tr

/-- C4 counterexample: neither write path follows the full protocol —
`writeDatabase` of macdb.js locks but writes the snapshot in place (no
temporary file, no rename), and `writeDatabase` of mac-database.js writes
a temporary file and renames it but takes no lock at all. -/
theorem write_protocol_counterexample :
    ¬ specWriteProtocol mdbWriteDatabaseEvents ∧
    ¬ specWriteProtocol writeDatabaseEvents := by
  constructor
  · intro h
    exact absurd h.2.1 (by decide)
  · intro h
    exact absurd h.1 (by decide)

theorem acquireLockLoop_bounded (free : Nat → Bool) :
    ∀ (fuel attempt : Nat),
    acquireLockLoop free attempt fuel = Except.error "Could not acquire database lock" ∨
    ∃ n, attempt ≤ n ∧ n < attempt + fuel ∧
      acquireLockLoop free attempt fuel = Except.ok n ∧ free n = true := by
  intro fuel
  induction fuel with
  | zero => intro attempt; exact Or.inl rfl
  | succ f ih =>
    intro attempt
    by_cases h : free attempt = true
    · exact Or.inr ⟨attempt, le_refl _, by omega, by simp [acquireLockLoop, h], h⟩
    · rcases ih (attempt + 1) with h1 | ⟨n, hn1, hn2, hn3, hn4⟩
      · exact Or.inl (by simp [acquireLockLoop, h, h1])
      · exact Or.inr ⟨n, by omega, by omega, by simp [acquireLockLoop, h, hn3], hn4⟩

theorem acquireLockLoop_busy :
    ∀ (fuel attempt : Nat),
    acquireLockLoop (fun _ => false) attempt fuel =
      Except.error "Could not acquire database lock" := by
  intro fuel
  induction fuel with
  | zero => intro attempt; rfl
  | succ f ih =>
    intro attempt
    simpa [acquireLockLoop] using ih (attempt + 1)

/-- C4 amended: `MacDatabase.writeDatabase` (macdb.js) does serialize every
write under the exclusive lock file, and `acquireLock` waits a bounded
5-second window polling every 10 ms (at most 500 attempts), throwing the
explicit lock error instead of blocking forever — but while holding the
lock it writes the snapshot in place: no temporary file and no rename.
`MACDatabase.writeDatabase` (mac-database.js) is the one that writes the
whole snapshot to a temporary file and atomically renames it into place,
but it takes no lock at all. -/
theorem write_protocol_amended :
    (∀ free : Nat → Bool,
      acquireLock free = Except.error "Could not acquire database lock" ∨
      ∃ n, n < lockMaxAttempts ∧ acquireLock free = Except.ok n ∧ free n = true) ∧
    acquireLock (fun _ => false) = Except.error "Could not acquire database lock" ∧
    lockMaxAttempts = 500 ∧
    (mdbWriteDatabaseEvents =
      [FsEvent.acquireLockFile, FsEvent.writeMainFile, FsEvent.releaseLockFile] ∧
     FsEvent.writeTempFile ∉ mdbWriteDatabaseEvents ∧
     FsEvent.renameTempToMain ∉ mdbWriteDatabaseEvents) ∧
    (FsEvent.writeTempFile ∈ writeDatabaseEvents ∧
     FsEvent.renameTempToMain ∈ writeDatabaseEvents ∧
     FsEvent.acquireLockFile ∉ writeDatabaseEvents ∧
     FsEvent.releaseLockFile ∉ writeDatabaseEvents) := by
  refine ⟨?_, acquireLockLoop_busy lockMaxAttempts 0, rfl,
    ⟨rfl, by decide, by decide⟩, ⟨by decide, by decide, by decide, by decide⟩⟩
  intro free
  rcases acquireLockLoop_bounded free lockMaxAttempts 0 with h | ⟨n, _, hn2, hn3, hn4⟩
  · exact Or.inl h
  · exact Or.inr ⟨n, by omega, hn3, hn4⟩

/-! ## Maintenance (C9) -/

/-- Integrity sweep over one entry (maintenance, mac-database.js lines
551-560): a falsy `id` gets a fresh UUID, a falsy `accessType` is defaulted
to `trial`; each fix counts once. -/
def sweepEntry (uuid : String) (e : Entry) : Entry × Nat :=
  let p1 := if truthy e.id = false then ({ e with id := some uuid }, 1) else (e, 0)
  if truthy p1.1.accessType = false then
    ({ p1.1 with accessType := some "trial" }, p1.2 + 1)
  else p1

/-- The sweep over all entries, consuming one fresh UUID index per entry. -/
def sweepAll (uuidSup : Nat → String) :
    List (String × Entry) → Nat → List (String × Entry) × Nat
  | [], _ => ([], 0)
  | (k, e) :: rest, i =>
      let p := sweepEntry (uuidSup i) e
      let r := sweepAll uuidSup rest (i + 1)
      ((k, p.1) :: r.1, p.2 + r.2)

/-- Log truncation step of `maintenance` (mac-database.js lines 538-545). -/
def truncateLog (log : List LogEntry) : List LogEntry :=
  if log.length > logBound then takeLast logBound log else log

structure MaintResult where
  success : Bool
  backupsCreated : Nat
  entriesFixed : Nat
  deriving DecidableEq

/-- `maintenance` (mac-database.js lines 530-585): forced backup, log
truncation, integrity sweep; a consolidated write happens only when the
sweep fixed something (`fixedCount > 0`), so the persisted snapshot is
otherwise untouched. -/
def maintenance (db : Database) (log : List LogEntry) (uuidSup : Nat → String)
    (now : String) : MaintResult × Database × List LogEntry :=
  let log' := truncateLog log
  let swept := sweepAll uuidSup db.macAddresses 0
  let db' :=
    if swept.2 > 0 then writeDatabasePrepare { db with macAddresses := swept.1 } now
    else db
  ({ success := true, backupsCreated := 1, entriesFixed := swept.2 }, db', log')

/-- An entry the sweep has nothing to fix on. -/
def entryClean (e : Entry) : Prop :=
  truthy e.id = true ∧ truthy e.accessType = true

theorem sweepEntry_clean (uuid : String) (e : Entry) (hu : uuid ≠ "") :
    entryClean (sweepEntry uuid e).1 := by
  have hs : truthy (some uuid) = true := by simp [truthy, hu]
  have ht : truthy (some "trial") = true := by decide
  unfold sweepEntry entryClean
  by_cases h1 : truthy e.id = false <;> by_cases h2 : truthy e.accessType = false <;>
    simp_all [hs, ht]

theorem sweepEntry_of_clean (uuid : String) (e : Entry) (h : entryClean e) :
    sweepEntry uuid e = (e, 0) := by
  unfold sweepEntry
  simp [h.1, h.2]

theorem sweepEntry_zero (uuid : String) (e : Entry)
    (h : (sweepEntry uuid e).2 = 0) : entryClean e := by
  unfold sweepEntry at h
  by_cases h1 : truthy e.id = false <;> by_cases h2 : truthy e.accessType = false <;>
    simp_all [entryClean]

theorem sweepAll_clean (uuidSup : Nat → String) (hU : ∀ n, uuidSup n ≠ "") :
    ∀ (entries : List (String × Entry)) (i : Nat),
    ∀ kv ∈ (sweepAll uuidSup entries i).1, entryClean kv.2 := by
  intro entries
  induction entries with
  | nil => intro i kv hkv; simp [sweepAll] at hkv
  | cons hd rest ih =>
    intro i kv hkv
    obtain ⟨k, e⟩ := hd
    simp only [sweepAll, List.mem_cons] at hkv
    rcases hkv with h1 | h2
    · rw [h1]
      exact sweepEntry_clean (uuidSup i) e (hU i)
    · exact ih (i + 1) kv h2

theorem sweepAll_of_clean (uuidSup : Nat → String) :
    ∀ (entries : List (String × Entry)) (i : Nat),
    (∀ kv ∈ entries, entryClean kv.2) →
    sweepAll uuidSup entries i = (entries, 0) := by
  intro entries
  induction entries with
  | nil => intro i _; rfl
  | cons hd rest ih =>
    intro i h
    obtain ⟨k, e⟩ := hd
    have he : entryClean e := h (k, e) (List.mem_cons_self _ _)
    have hr := ih (i + 1) (fun kv hkv => h kv (List.mem_cons_of_mem _ hkv))
    simp [sweepAll, sweepEntry_of_clean (uuidSup i) e he, hr]

theorem sweepAll_zero (uuidSup : Nat → String) :
    ∀ (entries : List (String × Entry)) (i : Nat),
    (sweepAll uuidSup entries i).2 = 0 → ∀ kv ∈ entries, entryClean kv.2 := by
  intro entries
  induction entries with
  | nil => intro i _ kv hkv; simp at hkv
  | cons hd rest ih =>
    intro i h kv hkv
    obtain ⟨k, e⟩ := hd
    simp only [sweepAll] at h
    have h1 : (sweepEntry (uuidSup i) e).2 = 0 := by omega
    have h2 : (sweepAll uuidSup rest (i + 1)).2 = 0 := by omega
    rcases List.mem_cons.mp hkv with h3 | h4
    · rw [h3]
      exact sweepEntry_zero (uuidSup i) e h1
    · exact ih (i + 1) h2 kv h4

/-- C9: maintenance is idempotent: whatever state the store is in, the
entry count fixed by a second `maintenance` run (with no mutation in
between) is zero — the first sweep leaves every entry with a truthy id and
a truthy access type, so the second sweep finds nothing.  The hypothesis
states that fresh UUIDs are never the empty string, as `crypto.randomUUID`
guarantees. -/
theorem maintenance_idempotent (db : Database) (log : List LogEntry)
    (uuidSup uuidSup₂ : Nat → String) (now now₂ : String)
    (hU : ∀ n, uuidSup n ≠ "") :
    (maintenance (maintenance db log uuidSup now).2.1
      (maintenance db log uuidSup now).2.2 uuidSup₂ now₂).1.entriesFixed = 0 := by
  have hclean : ∀ kv ∈ (maintenance db log uuidSup now).2.1.macAddresses,
      entryClean kv.2 := by
    show ∀ kv ∈ (if (sweepAll uuidSup db.macAddresses 0).2 > 0 then
        writeDatabasePrepare
          { db with macAddresses := (sweepAll uuidSup db.macAddresses 0).1 } now
      else db).macAddresses, entryClean kv.2
    by_cases h : (sweepAll uuidSup db.macAddresses 0).2 > 0
    · rw [if_pos h]
      exact fun kv hkv => sweepAll_clean uuidSup hU db.macAddresses 0 kv hkv
    · rw [if_neg h]
      exact fun kv hkv =>
        sweepAll_zero uuidSup db.macAddresses 0 (by omega) kv hkv
  have hz := sweepAll_of_clean uuidSup₂
    (maintenance db log uuidSup now).2.1.macAddresses 0 hclean
  show (sweepAll uuidSup₂ (maintenance db log uuidSup now).2.1.macAddresses 0).2 = 0
  rw [hz]

def entryC9 : Entry :=
  { description := "legacy row"
    accessType := none
    addedAt := "2023-12-12T00:00:00Z"
    updatedAt := none
    lastSeen := none
    accessCount := 0
    lastDevice := none
    id := some "" }

def dbC9 : Database :=
  { macAddresses := [("aa:aa:aa:aa:aa:bb", entryC9)]
    statistics := { totalDevices := 1, totalAccesses := 0, lastUpdated := "t0" } }

def uuidSupC9 : Nat → String := fun _ => "3f2c-fresh-uuid"

def uuidSupC9b : Nat → String := fun _ => "8a1d-fresh-uuid"

/-- Witness for C9 at a concrete store holding an entry with a falsy id and
a missing access type: the second maintenance run fixes nothing. -/
theorem maintenance_idempotent_witness :
    (maintenance (maintenance dbC9 [] uuidSupC9 "t1").2.1
      (maintenance dbC9 [] uuidSupC9 "t1").2.2 uuidSupC9b "t2").1.entriesFixed = 0 :=
  maintenance_idempotent dbC9 [] uuidSupC9 uuidSupC9b "t1" "t2"
    (by intro n; unfold uuidSupC9; decide)

/-! ## Persisted counters (C10) -/

/-- The persisted device counter agrees with the entry map. -/
def countersAgree (d : Database) : Prop :=
  d.statistics.totalDevices = d.macAddresses.length

/-- C10: every persisted write re-derives the aggregate counters just
before serialization — `writeDatabasePrepare` (mac-database.js) sets
`totalDevices` to the exact entry-map size and stamps `lastUpdated`, and
`mdbWritePrepare` (macdb.js) does the same for `totalEntries` and
`lastModified` — and consequently every mutating operation either leaves
the snapshot untouched or commits one whose stored device count equals its
entry-map size (bulk add always commits one). -/
theorem persisted_counters (now : String) :
    (∀ d : Database, countersAgree (writeDatabasePrepare d now) ∧
      (writeDatabasePrepare d now).statistics.lastUpdated = now) ∧
    (∀ d : MdbData, (mdbWritePrepare d now).metadata.totalEntries =
        d.macAddresses.length ∧
      (mdbWritePrepare d now).metadata.lastModified = some now) ∧
    (∀ (db : Database) (mac desc ty uuid : String),
      (addMACAddress db mac desc ty now uuid).2 = db ∨
      countersAgree (addMACAddress db mac desc ty now uuid).2) ∧
    (∀ (db : Database) (mac : String),
      (removeMACAddress db mac now).2 = db ∨
      countersAgree (removeMACAddress db mac now).2) ∧
    (∀ (db : Database) (mac ty : String),
      (updateMACAccess db mac ty now).2 = db ∨
      countersAgree (updateMACAccess db mac ty now).2) ∧
    (∀ (db : Database) (macs : List String) (dev : DeviceInfo),
      (checkAccess db macs dev now).2 = db ∨
      countersAgree (checkAccess db macs dev now).2) ∧
    (∀ (db : Database) (items : List BulkItem) (uuidSup : Nat → String),
      countersAgree (bulkAddMACs db items now uuidSup).2) := by
  refine ⟨fun d => ⟨rfl, rfl⟩, fun d => ⟨rfl, rfl⟩, ?_, ?_, ?_, ?_, ?_⟩
  · intro db mac desc ty uuid
    cases h : alookup (jsToLower mac) db.macAddresses with
    | some e => exact Or.inl (by simp [addMACAddress, h])
    | none =>
      exact Or.inr (by simp [addMACAddress, h, countersAgree, writeDatabasePrepare])
  · intro db mac
    cases h : alookup (jsToLower mac) db.macAddresses with
    | some e =>
      exact Or.inr (by simp [removeMACAddress, h, countersAgree, writeDatabasePrepare])
    | none => exact Or.inl (by simp [removeMACAddress, h])
  · intro db mac ty
    cases h : alookup (jsToLower mac) db.macAddresses with
    | some e =>
      exact Or.inr (by simp [updateMACAccess, h, countersAgree, writeDatabasePrepare])
    | none => exact Or.inl (by simp [updateMACAccess, h])
  · intro db macs dev
    induction macs with
    | nil => exact Or.inl rfl
    | cons m rest ih =>
      cases h : alookup (jsToLower m) db.macAddresses with
      | some e =>
        exact Or.inr (by
          simp [checkAccess, checkAccessLoop, h, countersAgree, writeDatabasePrepare])
      | none =>
        have heq : checkAccess db (m :: rest) dev now = checkAccess db rest dev now := by
          simp [checkAccess, checkAccessLoop, h]
        rw [heq]
        exact ih
  · intro db items uuidSup
    exact rfl

end Septsat
